import Mathlib

/-!
# Verification of the searchable-fileupload web application

Shallow embedding of the ingestion, search-query construction, highlight
rendering, keyword parsing, and download logic of the `searchable-fileupload`
Node.js application (files `server.js` and the search-route module), together
with proofs of the behavioural properties claimed by its specification.

Strings manipulated character-by-character by the JavaScript code are modelled
as `List Char`; the chained single-character `String.replace` calls of the
HTML escaper become per-character expansion maps.
-/

namespace SFU

/-! ## JavaScript values and the HTML escaper (search module, lines 32-40)

`escapeHtml(str)` first returns `""` when `str` is falsy but not the number 0
(`if (!str && str !== 0) return ""`), then stringifies and applies five global
single-character replacements in order: `&`, `<`, `>`, `"`, `'`. -/

/-- A JavaScript value as far as `escapeHtml` observes it: a string, a number,
`null`, or `undefined`. -/
inductive JSValue where
  | vstr (s : String)
  | vnum (n : Int)
  | vnull
  | vundefined
deriving DecidableEq

/-- JavaScript truthiness test `!v` for the values `escapeHtml` can receive:
`""`, `0`, `null` and `undefined` are falsy. -/
def JSValue.falsy : JSValue → Bool
  | .vstr s => s = ""
  | .vnum n => n = 0
  | .vnull => true
  | .vundefined => true

/-- JavaScript `String(v)` (only reached for truthy values or the number 0 in
`escapeHtml`). -/
def JSValue.toJSString : JSValue → List Char
  | .vstr s => s.data
  | .vnum n => (toString n).data
  | .vnull => ('n' :: 'u' :: 'l' :: 'l' :: [])
  | .vundefined => "undefined".data

/-- JavaScript `s.replace(/c/g, rep)` for a single-character pattern `c`:
every occurrence of `c` is replaced by `rep`. -/
def replaceAll (c : Char) (rep : List Char) (s : List Char) : List Char :=
  s.flatMap fun x => if x = c then rep else [x]

/-- The five chained replacements of `escapeHtml` applied in source order:
`&` → `&amp;`, `<` → `&lt;`, `>` → `&gt;`, `"` → `&quot;`, `'` → `&#39;`. -/
def escapeHtmlCore (s : List Char) : List Char :=
  replaceAll '\'' "&#39;".data
    (replaceAll '"' "&quot;".data
      (replaceAll '>' "&gt;".data
        (replaceAll '<' "&lt;".data
          (replaceAll '&' "&amp;".data s))))

/-- `escapeHtml` from the search module: empty string for falsy non-zero
input, otherwise the stringified value run through the replacement chain. -/
def escapeHtml (v : JSValue) : List Char :=
  if v.falsy && !(v = JSValue.vnum 0 : Bool) then []
  else escapeHtmlCore v.toJSString

/-- Per-character expansion equivalent to the replacement chain (proved below:
later replacements never touch the output of earlier ones). -/
def escapeChar (c : Char) : List Char :=
  if c = '&' then "&amp;".data
  else if c = '<' then "&lt;".data
  else if c = '>' then "&gt;".data
  else if c = '"' then "&quot;".data
  else if c = '\'' then "&#39;".data
  else [c]

theorem replaceAll_nil (c : Char) (rep : List Char) : replaceAll c rep [] = [] := rfl

theorem replaceAll_cons (c : Char) (rep : List Char) (x : Char) (s : List Char) :
    replaceAll c rep (x :: s) =
      (if x = c then rep else [x]) ++ replaceAll c rep s := rfl

theorem replaceAll_append (c : Char) (rep : List Char) (s t : List Char) :
    replaceAll c rep (s ++ t) = replaceAll c rep s ++ replaceAll c rep t := by
  simp [replaceAll]

/-- If a list contains no occurrence of `c`, `replaceAll c` leaves it alone. -/
theorem replaceAll_of_not_mem (c : Char) (rep : List Char) (s : List Char)
    (h : c ∉ s) : replaceAll c rep s = s := by
  induction s with
  | nil => rfl
  | cons x xs ih =>
    rw [replaceAll_cons]
    have hx : ¬ x = c := fun hxc => h (hxc ▸ List.mem_cons_self x xs)
    rw [if_neg hx, ih (fun hm => h (List.mem_cons_of_mem x hm))]
    rfl

/-- The chained replacements coincide with the per-character expansion. -/
theorem escapeHtmlCore_eq_flatMap (s : List Char) :
    escapeHtmlCore s = s.flatMap escapeChar := by
  induction s with
  | nil => rfl
  | cons x xs ih =>
    have step : ∀ c rep t u, replaceAll c rep (t ++ u) =
        replaceAll c rep t ++ replaceAll c rep u := replaceAll_append
    unfold escapeHtmlCore at ih ⊢
    rw [replaceAll_cons, step, step, step, step, List.flatMap_cons, ih]
    congr 1
    by_cases h1 : x = '&'
    · subst h1; decide
    by_cases h2 : x = '<'
    · subst h2; rw [if_neg h1]; decide
    by_cases h3 : x = '>'
    · subst h3; rw [if_neg h1]; decide
    by_cases h4 : x = '"'
    · subst h4; rw [if_neg h1]; decide
    by_cases h5 : x = '\''
    · subst h5; rw [if_neg h1]; decide
    · rw [if_neg h1]
      have e1 : replaceAll '<' "&lt;".data [x] = [x] := by
        apply replaceAll_of_not_mem
        simp only [List.mem_singleton]
        exact fun hh => h2 hh.symm
      have e2 : replaceAll '>' "&gt;".data [x] = [x] := by
        apply replaceAll_of_not_mem
        simp only [List.mem_singleton]
        exact fun hh => h3 hh.symm
      have e3 : replaceAll '"' "&quot;".data [x] = [x] := by
        apply replaceAll_of_not_mem
        simp only [List.mem_singleton]
        exact fun hh => h4 hh.symm
      have e4 : replaceAll '\'' "&#39;".data [x] = [x] := by
        apply replaceAll_of_not_mem
        simp only [List.mem_singleton]
        exact fun hh => h5 hh.symm
      rw [e1, e2, e3, e4, escapeChar, if_neg h1, if_neg h2, if_neg h3, if_neg h4, if_neg h5]

/-! ### Safety properties of the escaper -/

/-- A character that must never appear raw in escaped output. -/
def badHtmlChar (c : Char) : Bool :=
  c = '<' || c = '>' || c = '"' || c = '\''

/-- The tails of the five entities the escaper can produce after `&`. -/
def htmlEntityTails : List (List Char) :=
  ["amp;".data, "lt;".data, "gt;".data, "quot;".data, "#39;".data]

/-- Checks that every `&` in the list is immediately followed by one of the
five entity tails, i.e. that every ampersand begins a complete entity. -/
def ampersandsStartEntities : List Char → Bool
  | [] => true
  | c :: cs =>
    (if c = '&' then htmlEntityTails.any (fun e => e.isPrefixOf cs) else true)
      && ampersandsStartEntities cs

theorem escapeChar_all_not_bad (c : Char) :
    (escapeChar c).all (fun x => !(badHtmlChar x)) = true := by
  unfold escapeChar
  by_cases h1 : c = '&'
  · rw [if_pos h1]; decide
  rw [if_neg h1]
  by_cases h2 : c = '<'
  · rw [if_pos h2]; decide
  rw [if_neg h2]
  by_cases h3 : c = '>'
  · rw [if_pos h3]; decide
  rw [if_neg h3]
  by_cases h4 : c = '"'
  · rw [if_pos h4]; decide
  rw [if_neg h4]
  by_cases h5 : c = '\''
  · rw [if_pos h5]; decide
  rw [if_neg h5]
  simp [badHtmlChar, h2, h3, h4, h5]

theorem ampersandsStartEntities_cons (c : Char) (cs : List Char) :
    ampersandsStartEntities (c :: cs) =
      ((if c = '&' then htmlEntityTails.any (fun e => e.isPrefixOf cs) else true)
        && ampersandsStartEntities cs) := rfl

theorem ampersandsStartEntities_escapeChar_append (c : Char) (rest : List Char) :
    ampersandsStartEntities (escapeChar c ++ rest) = ampersandsStartEntities rest := by
  unfold escapeChar
  by_cases h1 : c = '&'
  · rw [if_pos h1]
    show ampersandsStartEntities ('&' :: 'a' :: 'm' :: 'p' :: ';' :: rest) = _
    rw [ampersandsStartEntities_cons, ampersandsStartEntities_cons,
      ampersandsStartEntities_cons, ampersandsStartEntities_cons,
      ampersandsStartEntities_cons]
    have hpre : htmlEntityTails.any
        (fun e => e.isPrefixOf ('a' :: 'm' :: 'p' :: ';' :: rest)) = true := by
      simp [htmlEntityTails, List.any_cons, List.isPrefixOf]
    rw [if_pos rfl, hpre]
    simp
  rw [if_neg h1]
  by_cases h2 : c = '<'
  · rw [if_pos h2]
    show ampersandsStartEntities ('&' :: 'l' :: 't' :: ';' :: rest) = _
    rw [ampersandsStartEntities_cons, ampersandsStartEntities_cons,
      ampersandsStartEntities_cons, ampersandsStartEntities_cons]
    have hpre : htmlEntityTails.any
        (fun e => e.isPrefixOf ('l' :: 't' :: ';' :: rest)) = true := by
      simp [htmlEntityTails, List.any_cons, List.isPrefixOf]
    rw [if_pos rfl, hpre]
    simp
  rw [if_neg h2]
  by_cases h3 : c = '>'
  · rw [if_pos h3]
    show ampersandsStartEntities ('&' :: 'g' :: 't' :: ';' :: rest) = _
    rw [ampersandsStartEntities_cons, ampersandsStartEntities_cons,
      ampersandsStartEntities_cons, ampersandsStartEntities_cons]
    have hpre : htmlEntityTails.any
        (fun e => e.isPrefixOf ('g' :: 't' :: ';' :: rest)) = true := by
      simp [htmlEntityTails, List.any_cons, List.isPrefixOf]
    rw [if_pos rfl, hpre]
    simp
  rw [if_neg h3]
  by_cases h4 : c = '"'
  · rw [if_pos h4]
    show ampersandsStartEntities ('&' :: 'q' :: 'u' :: 'o' :: 't' :: ';' :: rest) = _
    rw [ampersandsStartEntities_cons, ampersandsStartEntities_cons,
      ampersandsStartEntities_cons, ampersandsStartEntities_cons,
      ampersandsStartEntities_cons, ampersandsStartEntities_cons]
    have hpre : htmlEntityTails.any
        (fun e => e.isPrefixOf ('q' :: 'u' :: 'o' :: 't' :: ';' :: rest)) = true := by
      simp [htmlEntityTails, List.any_cons, List.isPrefixOf]
    rw [if_pos rfl, hpre]
    simp
  rw [if_neg h4]
  by_cases h5 : c = '\''
  · rw [if_pos h5]
    show ampersandsStartEntities ('&' :: '#' :: '3' :: '9' :: ';' :: rest) = _
    rw [ampersandsStartEntities_cons, ampersandsStartEntities_cons,
      ampersandsStartEntities_cons, ampersandsStartEntities_cons,
      ampersandsStartEntities_cons]
    have hpre : htmlEntityTails.any
        (fun e => e.isPrefixOf ('#' :: '3' :: '9' :: ';' :: rest)) = true := by
      simp [htmlEntityTails, List.any_cons, List.isPrefixOf]
    rw [if_pos rfl, hpre]
    simp
  rw [if_neg h5]
  show ampersandsStartEntities (c :: rest) = _
  rw [ampersandsStartEntities_cons, if_neg h1]
  simp

theorem escapeHtmlCore_all_not_bad (s : List Char) :
    (escapeHtmlCore s).all (fun x => !(badHtmlChar x)) = true := by
  rw [escapeHtmlCore_eq_flatMap]
  induction s with
  | nil => rfl
  | cons x xs ih =>
    rw [List.flatMap_cons, List.all_append, escapeChar_all_not_bad, ih]
    rfl

theorem escapeHtmlCore_ampersands (s : List Char) :
    ampersandsStartEntities (escapeHtmlCore s) = true := by
  rw [escapeHtmlCore_eq_flatMap]
  induction s with
  | nil => rfl
  | cons x xs ih =>
    rw [List.flatMap_cons, ampersandsStartEntities_escapeChar_append, ih]

/-- C10: for every input value, the escaper's output contains no raw `<`, `>`,
`"` or `'`, every `&` it contains begins one of the five entities `&amp;`,
`&lt;`, `&gt;`, `&quot;`, `&#39;`, the values `null`, `undefined` and `""` map
to the empty string, and the number 0 maps to `"0"`. -/
theorem escapeHtml_output_safe (v : JSValue) :
    (escapeHtml v).all (fun x => !(badHtmlChar x)) = true
      ∧ ampersandsStartEntities (escapeHtml v) = true
      ∧ escapeHtml JSValue.vnull = []
      ∧ escapeHtml JSValue.vundefined = []
      ∧ escapeHtml (JSValue.vstr "") = []
      ∧ escapeHtml (JSValue.vnum 0) = ['0'] := by
  refine ⟨?_, ?_, rfl, rfl, rfl, by decide⟩
  · unfold escapeHtml
    split
    · rfl
    · exact escapeHtmlCore_all_not_bad _
  · unfold escapeHtml
    split
    · rfl
    · exact escapeHtmlCore_ampersands _

/-! ## Highlight snippet assembly (search module, lines 44-95)

`buildHighlightTable` renders each highlight entry's `texts[]` segments: a
segment is first HTML-escaped (`escapeHtml(t.value || "")`), then a `"hit"`
segment is wrapped whole in `<mark>…</mark>`, while any other segment whose
*escaped* text exceeds `AROUND_LEN = 80` characters is cut to its trailing 80
characters behind the ellipsis literal of source line 64. -/

/-- A highlight text segment as delivered by the search service. A missing
`value` is turned into `""` by `t.value || ""`, so `value` is a plain string
here. -/
structure HighlightSegment where
  type : String
  value : String
deriving DecidableEq

/-- `const AROUND_LEN = 80;` — context kept for each non-hit segment. -/
def AROUND_LEN : Nat := 80

/-- The three-character ellipsis literal of source line 64 (the UTF-8 bytes of
an ellipsis decoded as Latin-1, exactly as they appear in the file). -/
def ellipsisMarker : List Char := ['â', '€', '¦']

/-- One element of `texts.map((t) => ...)` (source lines 55-68). Note the
escaping happens before the length test and the slice. -/
def renderSegment (t : HighlightSegment) : List Char :=
  let v := escapeHtmlCore t.value.data
  if t.type = "hit" then "<mark>".data ++ v ++ "</mark>".data
  else if v.length > AROUND_LEN then
    ellipsisMarker ++ v.drop (v.length - AROUND_LEN)
  else v

/-- The snippet for one highlight entry: the rendered parts concatenated in
original order (source line 70). -/
def buildSnippet (texts : List HighlightSegment) : List Char :=
  (texts.map renderSegment).flatten

/-- A rendered element of a list is an infix of the joined rendering. -/
theorem infix_join_of_mem {α β : Type} (f : α → List β) {a : α} {l : List α}
    (h : a ∈ l) : f a <:+: (l.map f).flatten := by
  induction l with
  | nil => cases h
  | cons x xs ih =>
    rw [List.map_cons, List.flatten_cons]
    rcases List.mem_cons.mp h with h1 | h2
    · subst h1
      exact (List.prefix_append (f a) _).isInfix
    · obtain ⟨u, w, hw⟩ := ih h2
      exact ⟨f x ++ u, w, by rw [← hw]; simp⟩

/-- C3: every `"hit"`-tagged segment of a highlight entry appears whole in the
rendered snippet, wrapped in the `<mark>` emphasis marker and never truncated,
regardless of its length. (Like every displayed text, the segment is rendered
through the HTML escaper; the escaped text is inserted in full.) -/
theorem hit_segments_never_truncated (texts : List HighlightSegment)
    (t : HighlightSegment) (hmem : t ∈ texts) (hhit : t.type = "hit") :
    ("<mark>".data ++ escapeHtmlCore t.value.data ++ "</mark>".data)
      <:+: buildSnippet texts := by
  have h := infix_join_of_mem renderSegment hmem
  unfold renderSegment at h
  rw [hhit, if_pos rfl] at h
  exact h

theorem hit_segments_never_truncated_witness :
    ("<mark>".data ++ escapeHtmlCore "abc".data ++ "</mark>".data)
      <:+: buildSnippet [⟨"hit", "abc"⟩] :=
  hit_segments_never_truncated _ ⟨"hit", "abc"⟩ (List.mem_singleton.mpr rfl) rfl

set_option maxRecDepth 4000 in
/-- C2 counterexample: the code measures and truncates the *escaped* text, so
for the 81-character segment of eighty `a`s followed by `&` (escaped to 85
characters), the snippet does not contain the trailing 80 raw characters of
the segment behind the ellipsis marker — the truncation removed five more
characters than the claim predicts. -/
theorem text_truncation_counterexample :
    ¬ ((ellipsisMarker ++ ((List.replicate 80 'a' ++ ['&']).drop
          ((List.replicate 80 'a' ++ ['&']).length - AROUND_LEN)))
        <:+: buildSnippet
          [⟨"text", String.mk (List.replicate 80 'a' ++ ['&'])⟩]) := by
  decide

/-- C2 amended: the length test and the truncation are applied to the
HTML-escaped segment text. For every non-`"hit"` segment whose escaped text
exceeds 80 characters, the snippet contains the ellipsis marker followed by
exactly the trailing 80 characters of the escaped text; a segment whose
escaped text is at most 80 characters appears in the snippet as that escaped
text, unabridged. -/
theorem text_segments_escaped_truncation (texts : List HighlightSegment)
    (t : HighlightSegment) (hmem : t ∈ texts) (htext : ¬ t.type = "hit") :
    ((escapeHtmlCore t.value.data).length > AROUND_LEN →
        (ellipsisMarker ++ (escapeHtmlCore t.value.data).drop
            ((escapeHtmlCore t.value.data).length - AROUND_LEN))
          <:+: buildSnippet texts)
      ∧ ((escapeHtmlCore t.value.data).length ≤ AROUND_LEN →
        escapeHtmlCore t.value.data <:+: buildSnippet texts) := by
  have h := infix_join_of_mem renderSegment hmem
  unfold renderSegment at h
  rw [if_neg htext] at h
  constructor
  · intro hlen
    rwa [if_pos hlen] at h
  · intro hlen
    rwa [if_neg (Nat.not_lt.mpr hlen)] at h

theorem text_segments_escaped_truncation_witness :
    (escapeHtmlCore "hello".data).length ≤ AROUND_LEN
      ∧ escapeHtmlCore "hello".data <:+: buildSnippet [⟨"text", "hello"⟩] :=
  ⟨by decide, (text_segments_escaped_truncation _ ⟨"text", "hello"⟩
      (List.mem_singleton.mpr rfl) (by decide)).2 (by decide)⟩

/-! ## The Atlas Search aggregation pipeline (search module, lines 179-248) -/

/-- The `fuzzy` options of a clause. -/
structure FuzzyOptions where
  maxEdits : Nat
  prefixLength : Nat
deriving DecidableEq

/-- A `path` value: a single field name or an array of field names. -/
inductive SearchPath where
  | one (field : String)
  | many (fields : List String)
deriving DecidableEq

/-- A clause of the compound `should` array; `boost` records an optional
`score: { boost: { value: n } }` wrapper. -/
inductive ShouldClause where
  | autocomplete (query : String) (path : SearchPath) (fuzzy : FuzzyOptions)
  | text (query : String) (path : SearchPath) (boost : Option Nat) (fuzzy : FuzzyOptions)
deriving DecidableEq

/-- The `compound` operator: `should` clauses and `minimumShouldMatch`. -/
structure CompoundQuery where
  should : List ShouldClause
  minimumShouldMatch : Nat
deriving DecidableEq

/-- The `$search` stage: index name, compound query, highlight paths. -/
structure SearchStage where
  index : String
  compound : CompoundQuery
  highlightPath : List String
deriving DecidableEq

/-- One stage of the aggregation pipeline; `$project` is recorded as the list
of projected fields (value 1 or a `$meta` expression in the source). -/
inductive PipelineStage where
  | search (s : SearchStage)
  | limit (n : Nat)
  | project (fields : List String)
deriving DecidableEq

/-- The aggregation pipeline the `/search` handler builds for the query string
`q` (source lines 184-248). -/
def pipeline (q : String) : List PipelineStage :=
  [ .search
      { index := "default"
        compound :=
          { should :=
              [ .autocomplete q (.one "metadata.name") ⟨1, 2⟩
              , .text q (.many ["metadata.keywords", "metadata.type",
                  "metadata.sourcePath", "metadata.content"]) (some 2) ⟨1, 2⟩
              , .text q (.one "metadata.briefing") (some 2) ⟨1, 2⟩ ]
            minimumShouldMatch := 1 }
        highlightPath := ["metadata.name", "metadata.type", "metadata.keywords",
          "metadata.briefing", "metadata.sourcePath", "metadata.content"] }
  , .limit 50
  , .project ["_id", "filename", "uploadDate", "length", "metadata",
      "score", "highlights"] ]

/-- What the `/search` handler does with a request. -/
inductive SearchAction where
  | renderEmptyForm
  | runPipeline (stages : List PipelineStage)
deriving DecidableEq

/-- The guard of the `/search` handler (lines 180-182): `const q = req.query.q;
if (!q) return renderSearchPage(res);` — a missing parameter is `undefined`
and the empty string is falsy; every other string reaches the pipeline. -/
def searchRoute (q : Option String) : SearchAction :=
  match q with
  | none => .renderEmptyForm
  | some s => if s = "" then .renderEmptyForm else .runPipeline (pipeline s)

/-- C1: for every non-empty query string, the handler runs the aggregation
pipeline, whose `$search` stage has exactly the three `should` clauses of the
claim (autocomplete on `metadata.name` with fuzzy maxEdits 1 / prefixLength 2;
a boosted text clause over keywords, type, sourcePath, content; a boosted text
clause on `metadata.briefing` alone), `minimumShouldMatch = 1`, a `$limit`
stage of 50 ≤ 50, and a highlight request over the six metadata fields. -/
theorem search_pipeline_shape (q : String) (hq : q ≠ "") :
    searchRoute (some q) = SearchAction.runPipeline (pipeline q)
      ∧ (pipeline q).head? = some (.search
          { index := "default"
            compound :=
              { should :=
                  [ .autocomplete q (.one "metadata.name") ⟨1, 2⟩
                  , .text q (.many ["metadata.keywords", "metadata.type",
                      "metadata.sourcePath", "metadata.content"]) (some 2) ⟨1, 2⟩
                  , .text q (.one "metadata.briefing") (some 2) ⟨1, 2⟩ ]
                minimumShouldMatch := 1 }
            highlightPath := ["metadata.name", "metadata.type",
              "metadata.keywords", "metadata.briefing", "metadata.sourcePath",
              "metadata.content"] })
      ∧ PipelineStage.limit 50 ∈ pipeline q ∧ 50 ≤ 50 := by
  refine ⟨?_, rfl, ?_, Nat.le_refl 50⟩
  · show (if q = "" then SearchAction.renderEmptyForm
      else SearchAction.runPipeline (pipeline q)) = _
    rw [if_neg hq]
  · unfold pipeline
    exact List.mem_cons_of_mem _ (List.mem_cons_self _ _)

theorem search_pipeline_shape_witness :
    ("ab" : String) ≠ ""
      ∧ searchRoute (some "ab") = SearchAction.runPipeline (pipeline "ab") :=
  ⟨by decide, (search_pipeline_shape "ab" (by decide)).1⟩

/-- C4 counterexample: a whitespace-only query string is truthy in
JavaScript, so the handler does issue an aggregation query to the external
search service instead of rendering the empty form. -/
theorem whitespace_query_issues_search :
    searchRoute (some " ") = SearchAction.runPipeline (pipeline " ")
      ∧ searchRoute (some " ") ≠ SearchAction.renderEmptyForm := by
  constructor
  · decide
  · decide

/-- C4 amended: only an absent or empty query string renders the empty-results
form with zero calls to the search service; every other string — including
whitespace-only ones — is sent to the aggregation pipeline. -/
theorem empty_query_no_search :
    searchRoute none = SearchAction.renderEmptyForm
      ∧ searchRoute (some "") = SearchAction.renderEmptyForm
      ∧ ∀ s : String, s ≠ "" →
          searchRoute (some s) = SearchAction.runPipeline (pipeline s) := by
  refine ⟨rfl, by decide, fun s hs => ?_⟩
  show (if s = "" then SearchAction.renderEmptyForm
    else SearchAction.runPipeline (pipeline s)) = _
  rw [if_neg hs]

theorem empty_query_no_search_witness :
    searchRoute none = SearchAction.renderEmptyForm
      ∧ searchRoute (some " ") = SearchAction.runPipeline (pipeline " ") :=
  ⟨empty_query_no_search.1, empty_query_no_search.2.2 " " (by decide)⟩

/-! ## Keyword parsing (server.js lines 237-239) and display

`const keywordArray = keywords ? keywords.split(',').map(k => k.trim())
.filter(Boolean) : [];` — and the display string `md.keywords.join(", ")`
(server.js line 95, search module line 118). -/

/-- Whitespace as removed by `String.prototype.trim()`. -/
def jsIsSpace (c : Char) : Bool := c.isWhitespace

/-- `k.trim()`: leading whitespace dropped, then trailing whitespace. -/
def jsTrim (s : List Char) : List Char :=
  List.rdropWhile jsIsSpace (List.dropWhile jsIsSpace s)

/-- `s.split(sep)` for a single-character separator: the pieces between
occurrences of `sep`, empty pieces kept. -/
def splitOnChar (sep : Char) : List Char → List (List Char)
  | [] => [[]]
  | c :: cs =>
    match splitOnChar sep cs with
    | [] => [[]]
    | p :: ps => if c = sep then [] :: p :: ps else (c :: p) :: ps

/-- The keyword parser of the upload route (server.js lines 237-239); an
absent form field arrives as the empty string, which is falsy. -/
def parseKeywordList (s : List Char) : List (List Char) :=
  if s = [] then []
  else ((splitOnChar ',' s).map jsTrim).filter (fun k => !k.isEmpty)

/-- `md.keywords.join(", ")`. -/
def displayKeywords (ks : List (List Char)) : List Char :=
  List.intercalate (',' :: ' ' :: []) ks

theorem splitOnChar_cons_eq (sep c : Char) (cs : List Char) :
    splitOnChar sep (c :: cs) =
      match splitOnChar sep cs with
      | [] => [[]]
      | p :: ps => if c = sep then [] :: p :: ps else (c :: p) :: ps := rfl

theorem splitOnChar_ne_nil (sep : Char) (s : List Char) : splitOnChar sep s ≠ [] := by
  cases s with
  | nil => exact fun h => List.noConfusion h
  | cons c cs =>
    rw [splitOnChar_cons_eq]
    rcases splitOnChar sep cs with _ | ⟨p, ps⟩
    · exact fun h => List.noConfusion h
    · dsimp only
      split
      · exact fun h => List.noConfusion h
      · exact fun h => List.noConfusion h

/-- No piece produced by `split(sep)` contains the separator. -/
theorem not_mem_of_mem_splitOnChar (sep : Char) (s : List Char) :
    ∀ p ∈ splitOnChar sep s, sep ∉ p := by
  induction s with
  | nil =>
    intro p hp
    simp only [splitOnChar, List.mem_singleton] at hp
    subst hp
    exact List.not_mem_nil sep
  | cons c cs ih =>
    intro p hp
    rw [splitOnChar_cons_eq] at hp
    rcases h : splitOnChar sep cs with _ | ⟨q, qs⟩
    · exact absurd h (splitOnChar_ne_nil sep cs)
    · rw [h] at hp
      dsimp only at hp
      by_cases hc : c = sep
      · rw [if_pos hc] at hp
        rcases List.mem_cons.mp hp with h1 | h2
        · subst h1; exact List.not_mem_nil sep
        · exact ih p (by rw [h]; exact h2)
      · rw [if_neg hc] at hp
        rcases List.mem_cons.mp hp with h1 | h2
        · subst h1
          intro hmem
          rcases List.mem_cons.mp hmem with h3 | h4
          · exact hc h3.symm
          · exact ih q (by rw [h]; exact List.mem_cons_self q qs) h4
        · exact ih p (by rw [h]; exact List.mem_cons_of_mem q h2)

/-- Splitting `a ++ s` when `a` is separator-free prepends `a` to the first
piece of the split of `s`. -/
theorem splitOnChar_append_of_not_mem (sep : Char) (a s : List Char)
    (ha : sep ∉ a) :
    ∀ p ps, splitOnChar sep s = p :: ps →
      splitOnChar sep (a ++ s) = (a ++ p) :: ps := by
  induction a with
  | nil => intro p ps h; simpa using h
  | cons c cs ih =>
    intro p ps h
    have hc : ¬ c = sep := fun h1 => ha (h1 ▸ List.mem_cons_self c cs)
    have hcs : sep ∉ cs := fun hm => ha (List.mem_cons_of_mem c hm)
    have hrec := ih hcs p ps h
    rw [List.cons_append, splitOnChar_cons_eq, hrec]
    dsimp only
    rw [if_neg hc, List.cons_append]

theorem splitOnChar_cons_sep (sep : Char) (s : List Char) :
    splitOnChar sep (sep :: s) = [] :: splitOnChar sep s := by
  rw [splitOnChar_cons_eq]
  rcases h : splitOnChar sep s with _ | ⟨p, ps⟩
  · exact absurd h (splitOnChar_ne_nil sep s)
  · dsimp only
    rw [if_pos rfl]

/-- The output of `trim` has no leading whitespace left. -/
theorem dropWhile_jsTrim (s : List Char) :
    List.dropWhile jsIsSpace (jsTrim s) = jsTrim s := by
  show List.dropWhile jsIsSpace
      (List.rdropWhile jsIsSpace (List.dropWhile jsIsSpace s)) =
    List.rdropWhile jsIsSpace (List.dropWhile jsIsSpace s)
  obtain ⟨w, hw⟩ :=
    List.rdropWhile_prefix jsIsSpace (List.dropWhile jsIsSpace s)
  rcases hu : List.rdropWhile jsIsSpace (List.dropWhile jsIsSpace s)
    with _ | ⟨x, xs⟩
  · rfl
  · have hx : ¬ jsIsSpace x = true := by
      intro hxx
      have h1 : List.dropWhile jsIsSpace s = x :: (xs ++ w) := by
        rw [← hw, hu, List.cons_append]
      have h2 : List.dropWhile jsIsSpace (List.dropWhile jsIsSpace s)
          = List.dropWhile jsIsSpace s :=
        List.dropWhile_idempotent jsIsSpace s
      rw [h1, List.dropWhile_cons, if_pos hxx] at h2
      have h3 := congrArg List.length h2
      have h4 := (List.dropWhile_suffix jsIsSpace
        (l := xs ++ w)).length_le
      simp only [List.length_cons, List.length_append] at h3 h4
      omega
    show List.dropWhile jsIsSpace (x :: xs) = x :: xs
    rw [List.dropWhile_cons, if_neg hx]

/-- `trim` is idempotent. -/
theorem jsTrim_idem (s : List Char) : jsTrim (jsTrim s) = jsTrim s := by
  show List.rdropWhile jsIsSpace (List.dropWhile jsIsSpace (jsTrim s)) = jsTrim s
  rw [dropWhile_jsTrim]
  show List.rdropWhile jsIsSpace
    (List.rdropWhile jsIsSpace (List.dropWhile jsIsSpace s)) = _
  exact List.rdropWhile_idempotent _ _

theorem jsTrim_cons_space (c : Char) (s : List Char) (hc : jsIsSpace c = true) :
    jsTrim (c :: s) = jsTrim s := by
  show List.rdropWhile jsIsSpace (List.dropWhile jsIsSpace (c :: s)) = _
  rw [List.dropWhile_cons, if_pos hc]
  rfl

theorem jsTrim_subset (s : List Char) : jsTrim s ⊆ s := by
  intro x hx
  have h1 : x ∈ List.dropWhile jsIsSpace s :=
    (List.rdropWhile_prefix jsIsSpace _).subset hx
  exact (List.dropWhile_suffix jsIsSpace).subset h1

theorem displayKeywords_single (k : List Char) : displayKeywords [k] = k := by
  simp [displayKeywords, List.intercalate]

theorem displayKeywords_cons_cons (k r : List Char) (rest : List (List Char)) :
    displayKeywords (k :: r :: rest) =
      k ++ ',' :: ' ' :: displayKeywords (r :: rest) := by
  simp [displayKeywords, List.intercalate, List.intersperse_cons_cons]

/-- Splitting the comma-space join of comma-free pieces recovers the pieces,
each non-first piece led by the space of the separator. -/
theorem splitOnChar_displayKeywords (rest : List (List Char)) :
    ∀ k : List Char, (∀ p ∈ k :: rest, ',' ∉ p) →
      splitOnChar ',' (displayKeywords (k :: rest)) =
        k :: rest.map (fun p => ' ' :: p) := by
  induction rest with
  | nil =>
    intro k hk
    rw [displayKeywords_single]
    have h1 := splitOnChar_append_of_not_mem ',' k []
      (hk k (List.mem_cons_self k [])) [] [] rfl
    simpa using h1
  | cons r rest' ih =>
    intro k hk
    rw [displayKeywords_cons_cons]
    have hir := ih r (fun p hp => hk p (List.mem_cons_of_mem k hp))
    have hsp : splitOnChar ','
        (' ' :: displayKeywords (r :: rest')) =
        (' ' :: r) :: rest'.map (fun p => ' ' :: p) := by
      rw [splitOnChar_cons_eq, hir]
      dsimp only
      rw [if_neg (by decide)]
    have hcomma : splitOnChar ','
        (',' :: ' ' :: displayKeywords (r :: rest')) =
        [] :: (' ' :: r) :: rest'.map (fun p => ' ' :: p) := by
      rw [splitOnChar_cons_sep, hsp]
    have happ := splitOnChar_append_of_not_mem ',' k
      (',' :: ' ' :: displayKeywords (r :: rest'))
      (hk k (List.mem_cons_self k _)) []
      ((' ' :: r) :: rest'.map (fun p => ' ' :: p)) hcomma
    rw [happ, List.append_nil, List.map_cons]

/-- Every stored keyword is trim-fixed, non-empty, and comma-free. -/
theorem parseKeywordList_props (s : List Char) :
    ∀ k ∈ parseKeywordList s, jsTrim k = k ∧ k ≠ [] ∧ ',' ∉ k := by
  intro k hk
  unfold parseKeywordList at hk
  by_cases hs : s = []
  · rw [if_pos hs] at hk; cases hk
  · rw [if_neg hs] at hk
    obtain ⟨hk1, hk2⟩ := List.mem_filter.mp hk
    obtain ⟨p, hp, rfl⟩ := List.mem_map.mp hk1
    refine ⟨jsTrim_idem p, ?_, ?_⟩
    · intro h
      rw [h] at hk2
      simp at hk2
    · intro hmem
      exact not_mem_of_mem_splitOnChar ',' s p hp (jsTrim_subset p hmem)

/-- Re-parsing the displayed keyword string recovers the stored sequence. -/
theorem parseKeywordList_displayKeywords (s : List Char) :
    parseKeywordList (displayKeywords (parseKeywordList s)) = parseKeywordList s := by
  rcases hks : parseKeywordList s with _ | ⟨k, rest⟩
  · rfl
  · have hprops : ∀ p ∈ k :: rest, jsTrim p = p ∧ p ≠ [] ∧ ',' ∉ p := by
      intro p hp
      exact parseKeywordList_props s p (by rw [hks]; exact hp)
    have hk0 := hprops k (List.mem_cons_self k rest)
    have hdne : displayKeywords (k :: rest) ≠ [] := by
      cases rest with
      | nil => rw [displayKeywords_single]; exact hk0.2.1
      | cons r rest' =>
        rw [displayKeywords_cons_cons]
        intro hcon
        exact hk0.2.1 (List.append_eq_nil.mp hcon).1
    unfold parseKeywordList
    rw [if_neg hdne,
      splitOnChar_displayKeywords rest k (fun p hp => (hprops p hp).2.2)]
    have hmap : (k :: rest.map (fun p => ' ' :: p)).map jsTrim = k :: rest := by
      rw [List.map_cons, hk0.1, List.map_map]
      congr 1
      have hstep : ∀ p ∈ rest, (jsTrim ∘ fun q => ' ' :: q) p = id p := by
        intro p hp
        show jsTrim (' ' :: p) = p
        rw [jsTrim_cons_space ' ' p (by decide),
          (hprops p (List.mem_cons_of_mem k hp)).1]
      rw [List.map_congr_left hstep, List.map_id]
    rw [hmap]
    have hfil : (k :: rest).filter (fun p => !p.isEmpty) = k :: rest := by
      rw [List.filter_eq_self]
      intro p hp
      simpa using (hprops p hp).2.1
    rw [hfil]

/-- C7: the displayed keywords string is the comma-and-space join of the
stored sequence (`displayKeywords`, used by both listing pages); re-parsing
that string (split on comma, trim, drop empties) yields the same stored
sequence; and the stored sequence contains no empty or whitespace-only
entry. -/
theorem keywords_display_roundtrip (s : List Char) :
    parseKeywordList (displayKeywords (parseKeywordList s)) = parseKeywordList s
      ∧ ∀ k ∈ parseKeywordList s,
          k ≠ [] ∧ k.any (fun c => !jsIsSpace c) = true := by
  refine ⟨parseKeywordList_displayKeywords s, fun k hk => ?_⟩
  obtain ⟨h1, h2, _⟩ := parseKeywordList_props s k hk
  refine ⟨h2, ?_⟩
  by_contra hany
  have hall : ∀ c ∈ k, jsIsSpace c := by
    intro c hc
    by_contra hcn
    exact hany (List.any_eq_true.mpr ⟨c, hc, by simpa using hcn⟩)
  have hnil : List.dropWhile jsIsSpace k = [] :=
    List.dropWhile_eq_nil_iff.mpr hall
  have hjk : jsTrim k = [] := by
    show List.rdropWhile jsIsSpace (List.dropWhile jsIsSpace k) = []
    rw [hnil]
    rfl
  exact h2 (h1.symm.trans hjk)

theorem keywords_display_roundtrip_witness :
    parseKeywordList (displayKeywords (parseKeywordList " a,, b ".data))
        = parseKeywordList " a,, b ".data
      ∧ ("a".data ≠ [] ∧ "a".data.any (fun c => !jsIsSpace c) = true) :=
  ⟨(keywords_display_roundtrip " a,, b ".data).1,
    (keywords_display_roundtrip " a,, b ".data).2 "a".data (by decide)⟩

/-! ## The upload route (server.js lines 204-301) -/

/-- JavaScript `a || b` for strings: `a` when truthy (non-empty), else `b`.
An absent form field (`undefined`) behaves like `""` here. -/
def jsOrElse (a b : String) : String := if a = "" then b else a

/-- `s.toLowerCase()` as applied to MIME type strings (ASCII). -/
def jsToLower (s : String) : String := ⟨s.data.map Char.toLower⟩

/-- `s.endsWith(suffix)`. -/
def strEndsWith (s suffix : String) : Bool := suffix.data.isSuffixOf s.data

/-- `const TEN_MB = 10 * 1024 * 1024;` (server.js line 243). -/
def TEN_MB : Nat := 10 * 1024 * 1024

/-- An uploaded file as Multer hands it to the route: original client
filename, declared MIME type (possibly empty), byte size, and the bytes as
UTF-8 text (what `fs.promises.readFile(path, 'utf8')` yields on success). -/
structure UploadedFile where
  originalname : String
  mimetype : String
  size : Nat
  decodedText : String
deriving DecidableEq

/-- The form fields of the upload request; absent fields arrive falsy and are
modelled as the empty string. -/
structure UploadForm where
  displayName : String
  type : String
  keywords : String
  briefing : String
deriving DecidableEq

/-- The Metadata Document stored with each upload (server.js lines 266-277). -/
structure MetadataDoc where
  name : String
  type : String
  keywords : List (List Char)
  briefing : String
  sizeBytes : Nat
  sourcePath : String
  content : Option String
deriving DecidableEq

/-- `shouldExtractContent(file)` (server.js lines 204-220): `!file.mimetype`
is falsy for the empty string; otherwise the lowercased MIME type is matched
against JSON, XML (including `+xml` suffixes) and the DOCX type. -/
def shouldExtractContent (file : UploadedFile) : Bool :=
  if file.mimetype = "" then false
  else
    let mt := jsToLower file.mimetype
    if mt = "application/json" || mt = "text/json" then true
    else if mt = "application/xml" || mt = "text/xml" || strEndsWith mt "+xml" then true
    else if mt = "application/vnd.openxmlformats-officedocument.wordprocessingml.document"
      then true
    else false

/-- The optional content extraction (server.js lines 242-264). `readResult`
is the outcome of `fs.promises.readFile(tmpFilePath, 'utf8')` and
`mammothResult` of `mammoth.extractRawText`; an error from either lands in
the catch block, which logs and leaves `contentString` undefined. The JS
`&&` of the guard is the nested conditional. Returns the `contentString`
(`none` for undefined) and whether an extraction failure was logged.
(`result.value || ''` in the DOCX branch maps an empty value to the empty
string, which is the identity on strings.) -/
def extractContentString (file : UploadedFile)
    (readResult : Except String String)
    (mammothResult : Except String String) : Option String × Bool :=
  if file.size ≤ TEN_MB then
    if shouldExtractContent file then
      let mimeType := jsToLower file.mimetype
      if mimeType = "application/json" || mimeType = "text/json" then
        match readResult with
        | .ok s => (some s, false)
        | .error _ => (none, true)
      else if mimeType = "application/xml" || mimeType = "text/xml"
          || strEndsWith mimeType "+xml" then
        match readResult with
        | .ok s => (some s, false)
        | .error _ => (none, true)
      else if mimeType
          = "application/vnd.openxmlformats-officedocument.wordprocessingml.document" then
        match mammothResult with
        | .ok v => (some v, false)
        | .error _ => (none, true)
      else (none, false)
    else (none, false)
  else (none, false)

/-- The metadata object of server.js lines 266-277, including the guard
`if (contentString && contentString.length > 0) metadata.content = ...`:
`content` is set only for a non-empty extracted string. -/
def buildMetadata (form : UploadForm) (file : UploadedFile)
    (contentString : Option String) : MetadataDoc :=
  { name := jsOrElse form.displayName file.originalname
    type := jsOrElse form.type (jsToLower file.mimetype)
    keywords := parseKeywordList form.keywords.data
    briefing := jsOrElse form.briefing ""
    sizeBytes := file.size
    sourcePath := file.originalname
    content :=
      match contentString with
      | some s => if s = "" then none else some s
      | none => none }

/-- The HTTP outcome of the upload route. -/
inductive UploadResponse where
  | badRequestNoFile
  | redirectHome
  | uploadFailed
deriving DecidableEq

/-- Observable result of one POST /upload request: the response, the stored
metadata (present iff the GridFS write finished), and whether an extraction
failure was logged. -/
structure UploadOutcome where
  response : UploadResponse
  stored : Option MetadataDoc
  loggedExtractionFailure : Bool
deriving DecidableEq

/-- The upload route (server.js lines 227-301). `storeOk` is whether the
GridFS upload stream emits `finish` (redirect to `/`) or `error`
(500 "Upload failed"); a missing file is rejected with 400 up front. -/
def uploadRoute (fileOpt : Option UploadedFile) (form : UploadForm)
    (readResult mammothResult : Except String String)
    (storeOk : Bool) : UploadOutcome :=
  match fileOpt with
  | none => ⟨.badRequestNoFile, none, false⟩
  | some file =>
    let ex := extractContentString file readResult mammothResult
    let md := buildMetadata form file ex.1
    if storeOk then ⟨.redirectHome, some md, ex.2⟩
    else ⟨.uploadFailed, none, ex.2⟩

theorem extractContentString_json_ok (file : UploadedFile)
    (mm : Except String String) (s : String)
    (hmime : jsToLower file.mimetype = "application/json")
    (hsize : file.size ≤ TEN_MB) :
    extractContentString file (.ok s) mm = (some s, false) := by
  have hne : ¬ file.mimetype = "" := by
    intro h0
    rw [h0] at hmime
    exact absurd hmime (by decide)
  have hsec : shouldExtractContent file = true := by
    unfold shouldExtractContent
    rw [if_neg hne]
    simp only [hmime]
    rw [if_pos (by decide)]
  unfold extractContentString
  rw [if_pos hsize, if_pos hsec]
  simp only [hmime]
  rw [if_pos (by decide)]

/-- Every branch of the extraction step either logs no failure or returns
undefined content with a logged failure — true of the JSON and XML reads as
much as of the DOCX mammoth extraction. -/
theorem extractContentString_cases (file : UploadedFile)
    (rr mm : Except String String) :
    (extractContentString file rr mm).2 = false
      ∨ extractContentString file rr mm = (none, true) := by
  unfold extractContentString
  dsimp only
  repeat' split
  all_goals first
    | exact Or.inl rfl
    | exact Or.inr rfl

/-- Whenever the extraction step logs a failure, the `contentString` it
returns is undefined. -/
theorem extractContentString_failure_none (file : UploadedFile)
    (rr mm : Except String String)
    (h : (extractContentString file rr mm).2 = true) :
    (extractContentString file rr mm).1 = none := by
  rcases extractContentString_cases file rr mm with hc | hc
  · rw [h] at hc
    exact absurd hc (by decide)
  · rw [hc]

theorem extractContentString_large (file : UploadedFile)
    (rr mm : Except String String) (hsize : TEN_MB < file.size) :
    extractContentString file rr mm = (none, false) := by
  unfold extractContentString
  rw [if_neg (Nat.not_le.mpr hsize)]

theorem buildMetadata_content_ne_empty (form : UploadForm)
    (file : UploadedFile) (cs : Option String) :
    (buildMetadata form file cs).content ≠ some "" := by
  unfold buildMetadata
  rcases cs with _ | s
  · exact fun h => Option.noConfusion h
  · dsimp only
    by_cases hs : s = ""
    · rw [if_pos hs]
      exact fun h => Option.noConfusion h
    · rw [if_neg hs]
      intro h
      exact hs (Option.some.inj h)

/-- C6 counterexample: an empty `application/json` upload (0 bytes ≤ 10MB,
read succeeds, decoded text `""`) stores no `content` field at all — the
guard `contentString && contentString.length > 0` rejects the empty string,
so `content` does not equal the decoded file text as the claim requires. -/
theorem json_empty_content_counterexample :
    (⟨"empty.json", "application/json", 0, ""⟩ : UploadedFile).mimetype
        = "application/json"
      ∧ (⟨"empty.json", "application/json", 0, ""⟩ : UploadedFile).size ≤ TEN_MB
      ∧ (buildMetadata ⟨"", "", "", ""⟩ ⟨"empty.json", "application/json", 0, ""⟩
            (extractContentString ⟨"empty.json", "application/json", 0, ""⟩
              (.ok "") (.ok "")).1).content
          ≠ some "" := by
  refine ⟨rfl, by decide, ?_⟩
  exact buildMetadata_content_ne_empty _ _ _

/-- C6 amended: for a JSON upload of at most 10MB whose read succeeds, the
stored `content` equals the file's decoded UTF-8 text when that text is
non-empty and is absent when the file is empty; every upload larger than
10MB stores no `content`; and `content` is never the empty string. -/
theorem json_content_extraction (form : UploadForm) (file : UploadedFile)
    (mm : Except String String)
    (hmime : jsToLower file.mimetype = "application/json")
    (hsize : file.size ≤ TEN_MB) :
    ((buildMetadata form file
          (extractContentString file (.ok file.decodedText) mm).1).content
        = if file.decodedText = "" then none else some file.decodedText)
      ∧ (∀ (f2 : UploadedFile) (rr mm2 : Except String String),
          TEN_MB < f2.size →
            (buildMetadata form f2 (extractContentString f2 rr mm2).1).content
              = none)
      ∧ (∀ (f3 : UploadedFile) (rr mm3 : Except String String),
          (buildMetadata form f3 (extractContentString f3 rr mm3).1).content
            ≠ some "") := by
  refine ⟨?_, ?_, ?_⟩
  · rw [extractContentString_json_ok file mm file.decodedText hmime hsize]
    rfl
  · intro f2 rr mm2 h2
    rw [extractContentString_large f2 rr mm2 h2]
    rfl
  · intro f3 rr mm3
    exact buildMetadata_content_ne_empty form f3 _

theorem json_content_extraction_witness :
    jsToLower ("application/json") = "application/json"
      ∧ (5 : Nat) ≤ TEN_MB
      ∧ (buildMetadata ⟨"", "", "", ""⟩ ⟨"a.json", "application/json", 5, "hello"⟩
            (extractContentString ⟨"a.json", "application/json", 5, "hello"⟩
              (.ok "hello") (.ok "")).1).content = some "hello" := by
  refine ⟨by decide, by decide, ?_⟩
  have h := (json_content_extraction ⟨"", "", "", ""⟩
    ⟨"a.json", "application/json", 5, "hello"⟩ (.ok "")
    (by decide) (by decide)).1
  simpa using h

/-- C9: for every upload on which the content extraction step fails —
whichever branch of the try/catch raised (JSON read, XML read, or DOCX
mammoth extraction) — the upload still succeeds: the route redirects to `/`,
the metadata is stored with `content` absent, and the failure is logged.
Every other failure class surfaces an error to the caller: a missing file is
rejected with 400 and a failed GridFS write answers 500, storing nothing. -/
theorem extraction_failure_recovered (form : UploadForm) (file : UploadedFile)
    (rr mm : Except String String)
    (hfail : (extractContentString file rr mm).2 = true) :
    ((uploadRoute (some file) form rr mm true).response
        = UploadResponse.redirectHome
      ∧ (uploadRoute (some file) form rr mm true).loggedExtractionFailure
          = true
      ∧ (uploadRoute (some file) form rr mm true).stored
          = some (buildMetadata form file none)
      ∧ (buildMetadata form file none).content = none)
      ∧ (∀ (form2 : UploadForm) (rr2 mm2 : Except String String) (so : Bool),
          (uploadRoute none form2 rr2 mm2 so).response
            = UploadResponse.badRequestNoFile
          ∧ (uploadRoute none form2 rr2 mm2 so).stored = none)
      ∧ ((uploadRoute (some file) form rr mm false).response
            = UploadResponse.uploadFailed
          ∧ (uploadRoute (some file) form rr mm false).stored = none) := by
  have hnone := extractContentString_failure_none file rr mm hfail
  refine ⟨?_, fun form2 rr2 mm2 so => ⟨rfl, rfl⟩, ?_⟩
  · simp [uploadRoute, hnone, hfail, buildMetadata]
  · simp [uploadRoute, hnone, hfail]

theorem extraction_failure_recovered_witness :
    (extractContentString
        ⟨"d.docx",
          "application/vnd.openxmlformats-officedocument.wordprocessingml.document",
          5, ""⟩ (.ok "") (.error "mammoth failed")).2 = true
      ∧ (uploadRoute (some ⟨"d.docx",
            "application/vnd.openxmlformats-officedocument.wordprocessingml.document",
            5, ""⟩)
          ⟨"", "", "", ""⟩ (.ok "") (.error "mammoth failed") true).response
        = UploadResponse.redirectHome
      ∧ (uploadRoute (some ⟨"d.docx",
            "application/vnd.openxmlformats-officedocument.wordprocessingml.document",
            5, ""⟩)
          ⟨"", "", "", ""⟩ (.ok "") (.error "mammoth failed") true).loggedExtractionFailure
        = true :=
  ⟨by decide,
    ((extraction_failure_recovered ⟨"", "", "", ""⟩
      ⟨"d.docx",
        "application/vnd.openxmlformats-officedocument.wordprocessingml.document",
        5, ""⟩ (.ok "") (.error "mammoth failed") (by decide)).1).1,
    ((extraction_failure_recovered ⟨"", "", "", ""⟩
      ⟨"d.docx",
        "application/vnd.openxmlformats-officedocument.wordprocessingml.document",
        5, ""⟩ (.ok "") (.error "mammoth failed") (by decide)).1).2.1⟩

/-! ## The download route `GET /files/:id` (server.js lines 341-357) -/

/-- Hexadecimal digit test for ObjectId validation. -/
def isHexDigit (c : Char) : Bool :=
  ('0' ≤ c && c ≤ '9') || ('a' ≤ c && c ≤ 'f') || ('A' ≤ c && c ≤ 'F')

/-- `new ObjectId(string)` of the MongoDB driver (an external dependency):
it succeeds exactly on a 24-character hexadecimal string and throws
otherwise; in the route the throw lands in the catch block. -/
def parseObjectId (s : String) : Option String :=
  if s.length = 24 && s.data.all isHexDigit then some s else none

/-- A stored file record as the download route consults it (fields the route
does not read are omitted). -/
structure StoredFileDoc where
  id : String
  filename : String
  contentType : String
deriving DecidableEq

/-- The download route's observable response. -/
inductive DownloadResponse where
  | notFound (body : String)
  | streamAttachment (contentType : String) (contentDisposition : String)
  | serverError (body : String)
deriving DecidableEq

/-- `GET /files/:id` (server.js lines 341-357): parse the id (throwing into
the catch → 500 "Download error"), `findOne` on the files collection (null →
404 "File not found"), else stream with `Content-Type` (falling back to
application/octet-stream) and `Content-Disposition: attachment`. -/
def filesDownloadRoute (store : List StoredFileDoc) (idParam : String) :
    DownloadResponse :=
  match parseObjectId idParam with
  | none => .serverError "Download error"
  | some oid =>
    match store.find? (fun f => f.id == oid) with
    | none => .notFound "File not found"
    | some doc =>
      .streamAttachment (jsOrElse doc.contentType "application/octet-stream")
        ("attachment; filename=\x22" ++ doc.filename ++ "\x22")

/-- C8 counterexample: the id `"abc"` identifies no stored record, yet the
response is a 500 "Download error" (the ObjectId constructor throws before
the lookup), not the 404 the claim requires for every unknown identifier. -/
theorem invalid_id_not_404 :
    filesDownloadRoute [] "abc" = DownloadResponse.serverError "Download error"
      ∧ filesDownloadRoute [] "abc"
          ≠ DownloadResponse.notFound "File not found" := by
  constructor
  · rfl
  · intro h
    exact DownloadResponse.noConfusion h

/-- C8 amended: for ids that parse as valid ObjectIds, an unknown id answers
404 "File not found" and a known id streams the blob with `Content-Type` and
`Content-Disposition: attachment` headers; a malformed id (the ObjectId
constructor throws) answers 500 "Download error" instead. -/
theorem files_download_behavior (store : List StoredFileDoc) (idParam : String)
    (oid : String) (hparse : parseObjectId idParam = some oid) :
    ((store.find? (fun f => f.id == oid) = none →
        filesDownloadRoute store idParam
          = DownloadResponse.notFound "File not found")
      ∧ ∀ doc, store.find? (fun f => f.id == oid) = some doc →
          filesDownloadRoute store idParam
            = DownloadResponse.streamAttachment
                (jsOrElse doc.contentType "application/octet-stream")
                ("attachment; filename=\x22" ++ doc.filename ++ "\x22"))
      ∧ (∀ bad : String, parseObjectId bad = none →
          filesDownloadRoute store bad
            = DownloadResponse.serverError "Download error") := by
  refine ⟨⟨?_, ?_⟩, ?_⟩
  · intro hfind
    unfold filesDownloadRoute
    rw [hparse]
    dsimp only
    rw [hfind]
  · intro doc hfind
    unfold filesDownloadRoute
    rw [hparse]
    dsimp only
    rw [hfind]
  · intro bad hbad
    unfold filesDownloadRoute
    rw [hbad]

theorem files_download_behavior_witness :
    filesDownloadRoute [] "0123456789abcdef01234567"
      = DownloadResponse.notFound "File not found" :=
  ((files_download_behavior [] "0123456789abcdef01234567"
    "0123456789abcdef01234567" (by decide)).1).1 rfl

/-! ## The home listing page (server.js lines 71-202) -/

/-- One row of the home-page table (server.js lines 92-110), after the
derivations `displayName = md.name || file.filename`,
`displayType = md.type || file.contentType || ''`,
`keywords = md.keywords.join(', ')`, `briefing = md.briefing || ''`. The
interpolated values are inserted into the markup raw — the home page never
calls an HTML escaper. `sizeKB` and `dateStr` stand for the derived size and
date strings; layout whitespace of the template literal is elided. -/
def homeFileRow (rowNum : Nat)
    (displayName filename displayType sizeKB dateStr keywords briefing id :
      String) : List Char :=
  ("<tr><td>" ++ toString rowNum ++ "</td><td>" ++ displayName ++ "</td><td>"
    ++ filename ++ "</td><td>" ++ displayType ++ "</td><td>" ++ sizeKB
    ++ " KB</td><td>" ++ dateStr ++ "</td><td>" ++ keywords ++ "</td><td>"
    ++ briefing ++ "</td><td><a href=\x22/files/" ++ id
    ++ "\x22>Download</a></td></tr>").data

set_option maxRecDepth 10000 in
/-- C5 (code bug exhibited): the home listing page interpolates
document-derived text unescaped — a briefing holding markup appears verbatim
in the rendered row, though the escaper (which the search page applies to the
same fields) would have removed every raw `<`. -/
theorem home_page_unescaped_injection :
    ("<script>alert(1)</script>".data <:+:
        homeFileRow 1 "Evil" "evil.txt" "txt" "0.10" "1/1/2026" "k"
          "<script>alert(1)</script>" "0123456789abcdef01234567")
      ∧ ¬ ("<script>".data <:+:
          escapeHtmlCore "<script>alert(1)</script>".data) := by
  constructor
  · decide
  · decide

end SFU
